import Mathlib

/-!
# Watcher: a verified shallow embedding

Shallow embedding of the Watcher file-watching program (`src/main.rs`).
The filesystem is modelled as an explicit value passed to the functions that
the Rust code lets perform I/O; machine integers (`u128` millisecond
timestamps) are modelled as `Nat` (no arithmetic is performed on them, only
equality comparison, so no overflow wrapping is involved).
-/

namespace Watcher

/-! ## Diff engine

The Rust code delegates line diffing to the external `diff` crate
(`diff::lines`), whose source is not part of this repository.

Modelled from the spec: the Diff Engine computes a minimal line-level
alignment using longest-common-subsequence-style matching; lines present in
both sequences in the same relative order are tagged Common (`both`), lines
only in old are tagged Removed (`left`), lines only in new are tagged Added
(`right`), in left-to-right reading order.  `DiffR` mirrors the crate's
`diff::Result<String>` (`Left` / `Both` / `Right`). -/

inductive DiffR where
  | left (l : String)
  | both (l r : String)
  | right (r : String)
deriving DecidableEq, Repr

/-- Length of a longest common subsequence of two line lists. -/
def lcsLen : List String → List String → Nat
  | [], _ => 0
  | _ :: _, [] => 0
  | a :: as, b :: bs =>
    if a = b then lcsLen as bs + 1
    else max (lcsLen (a :: as) bs) (lcsLen as (b :: bs))
termination_by l1 l2 => l1.length + l2.length
decreasing_by all_goals (simp; try omega)

/-- LCS-guided line diff: common lines become `both`, lines only in `old`
become `left` (Removed), lines only in `new` become `right` (Added). -/
def diffLines : List String → List String → List DiffR
  | [], [] => []
  | [], r :: rs => .right r :: diffLines [] rs
  | l :: ls, [] => .left l :: diffLines ls []
  | l :: ls, r :: rs =>
    if l = r then .both l r :: diffLines ls rs
    else if lcsLen (l :: ls) rs ≤ lcsLen ls (r :: rs) then
      .left l :: diffLines ls (r :: rs)
    else
      .right r :: diffLines (l :: ls) rs
termination_by l1 l2 => l1.length + l2.length
decreasing_by all_goals (simp; try omega)

/-- The old-side projection of a diff: the text carried by Removed (`left`)
and Common (`both`, old side) entries, in order. -/
def restoreOld : List DiffR → List String
  | [] => []
  | .left l :: t => l :: restoreOld t
  | .both l _ :: t => l :: restoreOld t
  | .right _ :: t => restoreOld t

/-- The new-side projection of a diff: the text carried by Added (`right`)
and Common (`both`, new side) entries, in order. -/
def restoreNew : List DiffR → List String
  | [] => []
  | .left _ :: t => restoreNew t
  | .both _ r :: t => r :: restoreNew t
  | .right r :: t => r :: restoreNew t

/-- C1: For any two line sequences `old` and `new`, concatenating in order
the lines of `diffLines old new` tagged Removed and Common reproduces `old`,
and concatenating in order the lines tagged Added and Common reproduces
`new`. -/
theorem diff_reconstructs (old new : List String) :
    restoreOld (diffLines old new) = old ∧ restoreNew (diffLines old new) = new := by
  induction old, new using diffLines.induct with
  | case1 => simp [diffLines, restoreOld, restoreNew]
  | case2 r rs ih => simp [diffLines, restoreOld, restoreNew, ih]
  | case3 l ls ih => simp [diffLines, restoreOld, restoreNew, ih]
  | case4 ls r rs ih =>
    simp [diffLines, restoreOld, restoreNew, ih]
  | case5 l ls r rs hne hle ih =>
    simp [diffLines, restoreOld, restoreNew, hne, hle, ih]
  | case6 l ls r rs hne hgt ih =>
    simp [diffLines, restoreOld, restoreNew, hne, hgt, ih]

/-! ## Snapshot nodes (`struct Node` in `src/main.rs`)

`Node` carries the same fields as the Rust struct: `kind`, `path`, `name`,
`elapsed` (the optional last-modified timestamp in milliseconds, `Option<u128>`
modelled as `Option Nat`), `content` (optional cached full text), the unused
`modified : bool` flag, and the ordered `children` vector.  Paths are opaque
strings. -/

inductive NodeType where
  | File
  | Folder
deriving DecidableEq, Repr

inductive Node where
  | mk (kind : NodeType) (path : String) (name : String) (elapsed : Option Nat)
       (content : Option String) (modified : Bool) (children : List Node)

@[simp] def Node.kind : Node → NodeType
  | .mk k _ _ _ _ _ _ => k

@[simp] def Node.path : Node → String
  | .mk _ p _ _ _ _ _ => p

@[simp] def Node.name : Node → String
  | .mk _ _ nm _ _ _ _ => nm

@[simp] def Node.elapsed : Node → Option Nat
  | .mk _ _ _ e _ _ _ => e

@[simp] def Node.content : Node → Option String
  | .mk _ _ _ _ ct _ _ => ct

@[simp] def Node.modified : Node → Bool
  | .mk _ _ _ _ _ md _ => md

@[simp] def Node.children : Node → List Node
  | .mk _ _ _ _ _ _ cs => cs

/-- The live filesystem as seen through the two I/O operations `Node::poll`
and `Node::read` perform: `stat p` is the result of `p.metadata()` followed by
`modified()` (`none` when the metadata call fails), and `read p` is the result
of `Node::read` (`none` on open failure, metadata failure, or content larger
than 10 MiB). -/
structure FS where
  stat : String → Option Nat
  read : String → Option String

/-- Rust `str::lines`, applied by `diff::lines` to both contents.  Modelled
from the spec: old_text/new_text are split into lines, a trailing newline does
not produce a final empty line, and no other normalization is applied. -/
def rustLines (s : String) : List String :=
  if s = "" then []
  else if s.endsWith "\n" then (s.splitOn "\n").dropLast
  else s.splitOn "\n"

/-- `diff::lines(old, new)` as invoked in `Node::poll`: split both texts into
lines and run the line diff. -/
def diffStr (old new : String) : List DiffR :=
  diffLines (rustLines old) (rustLines new)

/-- One detected change (`struct Notification`), minus the `time` field: the
Rust code fills `time` from the wall clock (`SystemTime::now()`), which none
of the verified properties mention. -/
structure Notification where
  path : String
  diff : List DiffR
deriving DecidableEq, Repr

/-! ### `Node::poll`

State-passing embedding of `Node::poll(&mut self, buffer: &mut Vec<Notification>)`:
the result is the updated node together with the list of notifications the
call pushes onto `buffer`, in push order.  Mirroring the Rust body:
the fresh `elapsed` is stat'ed for every node kind; only a `File` node with
`self.elapsed != elapsed` re-reads content, replaces `self.content`, and —
when both old and new content are present — pushes one notification carrying
its path and `diff::lines(old, new)`; every node then overwrites
`self.elapsed` with the fresh value and polls its children in order. -/

mutual

def Node.poll (fs : FS) : Node → Node × List Notification
  | .mk k p nm e ct md cs =>
    let elapsed := fs.stat p
    let rest := pollList fs cs
    if k = .File ∧ e ≠ elapsed then
      let newContent := fs.read p
      let notifs : List Notification :=
        match ct, newContent with
        | some oldLines, some newLines => [⟨p, diffStr oldLines newLines⟩]
        | _, _ => []
      (.mk k p nm elapsed newContent md rest.1, notifs ++ rest.2)
    else
      (.mk k p nm elapsed ct md rest.1, rest.2)

def pollList (fs : FS) : List Node → List Node × List Notification
  | [] => ([], [])
  | c :: cs =>
    let r := Node.poll fs c
    let rs := pollList fs cs
    (r.1 :: rs.1, r.2 ++ rs.2)

end

/-! A node (and, mutually, a list of nodes) whose stored `elapsed` timestamp
agrees with the live filesystem everywhere in the subtree. -/

mutual

def Node.synced (fs : FS) : Node → Bool
  | .mk _ p _ e _ _ cs => (e == fs.stat p) && syncedList fs cs

def syncedList (fs : FS) : List Node → Bool
  | [] => true
  | c :: cs => Node.synced fs c && syncedList fs cs

end

/-- After one poll pass, every node's stored `elapsed` equals the live stat
value of its path. -/
theorem poll_synced (fs : FS) (n : Node) :
    Node.synced fs (Node.poll fs n).1 = true := by
  refine @Node.rec (fun m => Node.synced fs (Node.poll fs m).1 = true)
    (fun cs => syncedList fs (pollList fs cs).1 = true) ?_ ?_ ?_ n
  · intro k p nm e ct md cs ih
    by_cases h : k = NodeType.File ∧ e ≠ fs.stat p
    · simp [Node.poll, h, Node.synced, ih]
    · simp [Node.poll, h, Node.synced, ih]
  · simp [pollList, syncedList]
  · intro c cs ihc ihcs
    simp [pollList, syncedList, ihc, ihcs]

/-- A synced tree produces no notifications when polled. -/
theorem poll_synced_no_notifs (fs : FS) (n : Node)
    (h : Node.synced fs n = true) : (Node.poll fs n).2 = [] := by
  refine @Node.rec (fun m => Node.synced fs m = true → (Node.poll fs m).2 = [])
    (fun cs => syncedList fs cs = true → (pollList fs cs).2 = []) ?_ ?_ ?_ n h
  · intro k p nm e ct md cs ih hs
    simp [Node.synced, Bool.and_eq_true] at hs
    simp [Node.poll, hs.1, ih hs.2]
  · simp [pollList]
  · intro c cs ihc ihcs hs
    simp [syncedList, Bool.and_eq_true] at hs
    simp [pollList, ihc hs.1, ihcs hs.2]

/-- C3: Polling a tree twice in immediate succession against the same
filesystem (no change between the calls) appends zero notifications on the
second call. -/
theorem poll_twice_no_notifications (fs : FS) (n : Node) :
    (Node.poll fs (Node.poll fs n).1).2 = [] :=
  poll_synced_no_notifs fs _ (poll_synced fs n)

/-- C2: A `File` node whose stored `modified` value differs (strict
inequality on `Option`) from the live stat value, with both the cached old
content and the freshly read new content present, contributes exactly one
notification, carrying the node's path and `diff(old, new)`.  (`File` nodes
built by `Node::fill` always have an empty `children` vector.) -/
theorem poll_file_changed (fs : FS) (n : Node) (o nw : String)
    (hk : n.kind = NodeType.File) (hc : n.children = [])
    (hne : n.elapsed ≠ fs.stat n.path)
    (hold : n.content = some o) (hnew : fs.read n.path = some nw) :
    (Node.poll fs n).2 = [⟨n.path, diffStr o nw⟩] := by
  obtain ⟨k, p, nm, e, ct, md, cs⟩ := n
  simp only [Node.kind] at hk
  simp only [Node.children] at hc
  simp only [Node.elapsed, Node.path] at hne
  simp only [Node.content] at hold
  simp only [Node.path] at hnew
  subst hk hc hold
  simp [Node.poll, pollList, hne, hnew]

/-- Witness for C2 on a concrete node and filesystem. -/
theorem poll_file_changed_witness :
    (Node.poll ⟨fun _ => some 2, fun _ => some "hello\nworld\n"⟩
        (.mk .File "/w/a.txt" "a.txt" (some 1) (some "hello\n") false [])).2 =
      [⟨"/w/a.txt", diffStr "hello\n" "hello\nworld\n"⟩] :=
  poll_file_changed ⟨fun _ => some 2, fun _ => some "hello\nworld\n"⟩
    (.mk .File "/w/a.txt" "a.txt" (some 1) (some "hello\n") false [])
    "hello\n" "hello\nworld\n" rfl rfl (by decide) rfl rfl

/-- C4: A `File` node whose modification time has changed but where exactly
one of cached old content and freshly read new content is missing produces no
notification, yet still updates its stored `modified` timestamp and replaces
its cached content with the freshly read value. -/
theorem poll_file_content_missing (fs : FS) (n : Node)
    (hk : n.kind = NodeType.File) (hc : n.children = [])
    (hne : n.elapsed ≠ fs.stat n.path)
    (hmiss : n.content.isSome ≠ (fs.read n.path).isSome) :
    (Node.poll fs n).2 = [] ∧
    (Node.poll fs n).1.elapsed = fs.stat n.path ∧
    (Node.poll fs n).1.content = fs.read n.path := by
  obtain ⟨k, p, nm, e, ct, md, cs⟩ := n
  simp only [Node.kind] at hk
  simp only [Node.children] at hc
  simp only [Node.elapsed, Node.path] at hne
  simp only [Node.content, Node.path] at hmiss
  subst hk hc
  cases ct with
  | none =>
    cases hR : fs.read p with
    | none => simp [hR] at hmiss
    | some v => simp [Node.poll, pollList, hne, hR, Node.elapsed, Node.content]
  | some o =>
    cases hR : fs.read p with
    | none => simp [Node.poll, pollList, hne, hR, Node.elapsed, Node.content]
    | some v => simp [hR] at hmiss

/-- Witness for C4: the file became unreadable (new content `None`) while old
content was cached. -/
theorem poll_file_content_missing_witness :
    (Node.poll ⟨fun _ => some 9, fun _ => none⟩
        (.mk .File "/w/b.txt" "b.txt" (some 3) (some "old") false [])).2 = [] ∧
    (Node.poll ⟨fun _ => some 9, fun _ => none⟩
        (.mk .File "/w/b.txt" "b.txt" (some 3) (some "old") false [])).1.elapsed = some 9 ∧
    (Node.poll ⟨fun _ => some 9, fun _ => none⟩
        (.mk .File "/w/b.txt" "b.txt" (some 3) (some "old") false [])).1.content = none :=
  poll_file_content_missing ⟨fun _ => some 9, fun _ => none⟩
    (.mk .File "/w/b.txt" "b.txt" (some 3) (some "old") false [])
    rfl rfl (by decide) (by decide)

/-- C7 counterexample: `Node::poll` line 247 (`self.elapsed = elapsed;`) runs
for `Folder` nodes too, so when the folder's path stats successfully the
stored `modified` timestamp becomes `Some`, not `None`: polling an
invariant-respecting folder (`elapsed = none`, `content = none`) against a
filesystem whose stat returns `some 7` leaves the folder with
`elapsed = some 7` while `content` is still `none`. -/
theorem poll_folder_elapsed_overwritten :
    (Node.mk .Folder "/w/d" "d" none none false []).kind = NodeType.Folder ∧
    (Node.mk .Folder "/w/d" "d" none none false []).elapsed = none ∧
    (Node.poll ⟨fun _ => some 7, fun _ => none⟩
        (.mk .Folder "/w/d" "d" none none false [])).1.elapsed ≠ none ∧
    (Node.poll ⟨fun _ => some 7, fun _ => none⟩
        (.mk .Folder "/w/d" "d" none none false [])).1.content = none := by
  refine ⟨rfl, rfl, ?_, rfl⟩
  decide

/-- C7 (amended): `poll` on a `Folder` node performs no self comparison and
pushes no notification of its own — its output is exactly the concatenation,
in order, of its children's notifications — and it leaves `content`
untouched; however it overwrites the folder's stored `modified` timestamp
with the freshly observed stat value (which may be `Some`) rather than
leaving it `None`. -/
theorem poll_folder_no_self_notification (fs : FS) (n : Node)
    (hk : n.kind = NodeType.Folder) :
    (Node.poll fs n).2 = (pollList fs n.children).2 ∧
    (Node.poll fs n).1.content = n.content ∧
    (Node.poll fs n).1.children = (pollList fs n.children).1 ∧
    (Node.poll fs n).1.elapsed = fs.stat n.path := by
  obtain ⟨k, p, nm, e, ct, md, cs⟩ := n
  simp only [Node.kind] at hk
  subst hk
  simp [Node.poll]

/-- Witness for C7's amended statement on a concrete folder with one file
child. -/
theorem poll_folder_no_self_notification_witness :
    (Node.poll ⟨fun _ => some 7, fun _ => some "x"⟩
        (.mk .Folder "/w" "w" none none false
          [.mk .File "/w/a.txt" "a.txt" (some 1) (some "y") false []])).2 =
      (pollList ⟨fun _ => some 7, fun _ => some "x"⟩
        [.mk .File "/w/a.txt" "a.txt" (some 1) (some "y") false []]).2 ∧
    (Node.poll ⟨fun _ => some 7, fun _ => some "x"⟩
        (.mk .Folder "/w" "w" none none false
          [.mk .File "/w/a.txt" "a.txt" (some 1) (some "y") false []])).1.content = none ∧
    (Node.poll ⟨fun _ => some 7, fun _ => some "x"⟩
        (.mk .Folder "/w" "w" none none false
          [.mk .File "/w/a.txt" "a.txt" (some 1) (some "y") false []])).1.children =
      (pollList ⟨fun _ => some 7, fun _ => some "x"⟩
        [.mk .File "/w/a.txt" "a.txt" (some 1) (some "y") false []]).1 ∧
    (Node.poll ⟨fun _ => some 7, fun _ => some "x"⟩
        (.mk .Folder "/w" "w" none none false
          [.mk .File "/w/a.txt" "a.txt" (some 1) (some "y") false []])).1.elapsed = some 7 :=
  poll_folder_no_self_notification ⟨fun _ => some 7, fun _ => some "x"⟩
    (.mk .Folder "/w" "w" none none false
      [.mk .File "/w/a.txt" "a.txt" (some 1) (some "y") false []]) rfl

/-! ## Snapshot builder (`Node::fill`)

The filesystem subtree handed to one `fill` call, as seen through the OS
calls the Rust code makes.  A `file` entry carries the results of
`path.file_name()`, `path.extension()`, `path.metadata().modified()`
(in milliseconds, `none` when the metadata call fails) and `Node::read`
(`none` on open/metadata failure or content over 10 MiB).  A `dir` entry
carries its listed entries; `readable = false` models `read_dir()` failing
(e.g. permission denied), for which the Rust code returns with an empty
children vector. -/

inductive FsEntry where
  | file (path : String) (name : Option String) (ext : Option String)
         (mtime : Option Nat) (content : Option String)
  | dir (path : String) (name : Option String) (readable : Bool)
        (entries : List FsEntry)

/-! ### `Node::fill`

`fill` classifies the entry: a file whose extension is absent or not in
`targets` keeps the `Node::new` defaults but has its path replaced by the
`"..."` exclusion sentinel; a tracked file records `modified` and content;
a folder builds each listed entry in order, skipping sentinel-marked children
and child folders that ended up with no children. -/

mutual

def Node.fill (targets : List String) : FsEntry → Node
  | .file p nm ext mt ct =>
    match ext with
    | none => .mk .File "..." (nm.getD "root") none none false []
    | some x =>
      if targets.contains x then
        .mk .File p (nm.getD "root") mt ct false []
      else
        .mk .File "..." (nm.getD "root") none none false []
  | .dir p nm readable entries =>
    if readable then
      .mk .Folder p (nm.getD "root") none none false (fillList targets entries)
    else
      .mk .Folder p (nm.getD "root") none none false []

def fillList (targets : List String) : List FsEntry → List Node
  | [] => []
  | e :: es =>
    let child := Node.fill targets e
    if child.path = "..." then fillList targets es
    else if child.kind == NodeType.Folder && child.children.isEmpty then fillList targets es
    else child :: fillList targets es

end

/-! Paths of the `File` nodes of a snapshot tree, and paths of the file
entries of a filesystem subtree whose extension is in `targets`. -/

mutual

def fileNodePaths : Node → List String
  | .mk k p _ _ _ _ cs =>
    (if k = NodeType.File then [p] else []) ++ fileNodePathsList cs

def fileNodePathsList : List Node → List String
  | [] => []
  | c :: cs => fileNodePaths c ++ fileNodePathsList cs

end

mutual

def trackedFilePaths (targets : List String) : FsEntry → List String
  | .file p _ ext _ _ =>
    match ext with
    | none => []
    | some x => if targets.contains x then [p] else []
  | .dir _ _ _ entries => trackedFilePathsList targets entries

def trackedFilePathsList (targets : List String) : List FsEntry → List String
  | [] => []
  | e :: es => trackedFilePaths targets e ++ trackedFilePathsList targets es

end

/-- A `false` boolean is not `true`. -/
theorem bool_ne_true {b : Bool} (h : b = false) : ¬(b = true) := by simp [h]

/-- Every `File` node in the tree built from one non-excluded entry has the
path of some tracked file entry of that entry's subtree. -/
theorem fill_files_tracked (targets : List String) (e : FsEntry) :
    ∀ q ∈ fileNodePaths (Node.fill targets e),
      (Node.fill targets e).path ≠ "..." → q ∈ trackedFilePaths targets e := by
  refine @FsEntry.rec
    (fun e => ∀ q ∈ fileNodePaths (Node.fill targets e),
      (Node.fill targets e).path ≠ "..." → q ∈ trackedFilePaths targets e)
    (fun es => ∀ q ∈ fileNodePathsList (fillList targets es),
      q ∈ trackedFilePathsList targets es)
    ?_ ?_ ?_ ?_ e
  · intro p nm ext mt ct q hq hs
    cases ext with
    | none =>
      simp only [Node.fill, Node.path] at hs
      exact absurd rfl hs
    | some x =>
      simp only [Node.fill] at hq hs
      by_cases ht : targets.contains x = true
      · rw [if_pos ht] at hq
        simp only [trackedFilePaths]
        rw [if_pos ht]
        simp [fileNodePaths, fileNodePathsList] at hq
        simp [hq]
      · rw [if_neg ht] at hs
        simp only [Node.path] at hs
        exact absurd rfl hs
  · intro p nm readable entries ih q hq hs
    cases readable with
    | false => simp [Node.fill, fileNodePaths, fileNodePathsList] at hq
    | true =>
      simp only [Node.fill, if_pos] at hq
      simp only [fileNodePaths, if_neg (by simp : ¬(NodeType.Folder = NodeType.File)),
        List.nil_append] at hq
      exact ih q hq
  · intro q hq
    simp [fillList, fileNodePathsList] at hq
  · intro e es ihe ihes q hq
    simp only [fillList] at hq
    by_cases h1 : (Node.fill targets e).path = "..."
    · rw [if_pos h1] at hq
      simp only [trackedFilePathsList]
      exact List.mem_append_right _ (ihes q hq)
    · rw [if_neg h1] at hq
      cases h2 : ((Node.fill targets e).kind == NodeType.Folder &&
          (Node.fill targets e).children.isEmpty) with
      | true =>
        rw [if_pos h2] at hq
        simp only [trackedFilePathsList]
        exact List.mem_append_right _ (ihes q hq)
      | false =>
        rw [if_neg (bool_ne_true h2)] at hq
        simp only [fileNodePathsList, List.mem_append] at hq
        rcases hq with hq | hq
        · exact List.mem_append_left _ (ihe q hq h1)
        · exact List.mem_append_right _ (ihes q hq)

/-- Every `File` node produced by building a list of entries has the path of
some file entry in that list whose extension is tracked. -/
theorem fillList_files_tracked (targets : List String) (es : List FsEntry) :
    ∀ q ∈ fileNodePathsList (fillList targets es),
      q ∈ trackedFilePathsList targets es := by
  induction es with
  | nil => intro q hq; simp [fillList, fileNodePathsList] at hq
  | cons e es ihes =>
    intro q hq
    simp only [fillList] at hq
    by_cases h1 : (Node.fill targets e).path = "..."
    · rw [if_pos h1] at hq
      simp only [trackedFilePathsList]
      exact List.mem_append_right _ (ihes q hq)
    · rw [if_neg h1] at hq
      cases h2 : ((Node.fill targets e).kind == NodeType.Folder &&
          (Node.fill targets e).children.isEmpty) with
      | true =>
        rw [if_pos h2] at hq
        simp only [trackedFilePathsList]
        exact List.mem_append_right _ (ihes q hq)
      | false =>
        rw [if_neg (bool_ne_true h2)] at hq
        simp only [fileNodePathsList, List.mem_append] at hq
        rcases hq with hq | hq
        · exact List.mem_append_left _ (fill_files_tracked targets e q hq h1)
        · exact List.mem_append_right _ (ihes q hq)

/-- C5: The builder never includes a path as a `File` node unless some file
entry at that path has an extension (compared case-sensitively, without the
separator) belonging to `targets`: every `File`-node path of the finished
tree (built from a directory root, as `FileTree::fill` does with the current
working directory) is the path of a tracked file entry.  In particular a path
with no extension, or with an untracked extension, never appears as a `File`
node. -/
theorem fill_only_tracked_files (targets : List String) (p : String)
    (nm : Option String) (r : Bool) (es : List FsEntry) :
    ∀ q ∈ fileNodePaths (Node.fill targets (.dir p nm r es)),
      q ∈ trackedFilePaths targets (.dir p nm r es) := by
  intro q hq
  cases r with
  | false => simp [Node.fill, fileNodePaths, fileNodePathsList] at hq
  | true =>
    simp only [Node.fill, if_pos] at hq
    simp only [fileNodePaths, if_neg (by simp : ¬(NodeType.Folder = NodeType.File)),
      List.nil_append] at hq
    exact fillList_files_tracked targets es q hq

/-- Witness for C5: a root with one tracked `.txt` file and one untracked
`.log` file; the tracked path is a `File` node and is indeed tracked. -/
theorem fill_only_tracked_files_witness :
    "/r/a.txt" ∈ fileNodePaths (Node.fill ["txt"]
        (.dir "/r" (some "r") true
          [.file "/r/a.txt" (some "a.txt") (some "txt") (some 1) (some "hello\n"),
           .file "/r/b.log" (some "b.log") (some "log") (some 2) (some "x")])) ∧
    "/r/a.txt" ∈ trackedFilePaths ["txt"]
        (.dir "/r" (some "r") true
          [.file "/r/a.txt" (some "a.txt") (some "txt") (some 1) (some "hello\n"),
           .file "/r/b.log" (some "b.log") (some "log") (some 2) (some "x")]) :=
  ⟨by decide,
   fill_only_tracked_files ["txt"] "/r" (some "r") true
     [.file "/r/a.txt" (some "a.txt") (some "txt") (some 1) (some "hello\n"),
      .file "/r/b.log" (some "b.log") (some "log") (some 2) (some "x")]
     "/r/a.txt" (by decide)⟩

/-! All nodes of a snapshot tree (the node itself and, recursively, its
descendants), and whether a subtree contains a `File` node. -/

mutual

def allNodes : Node → List Node
  | .mk k p nm e ct md cs => .mk k p nm e ct md cs :: allNodesList cs

def allNodesList : List Node → List Node
  | [] => []
  | c :: cs => allNodes c ++ allNodesList cs

end

mutual

def Node.hasFile : Node → Bool
  | .mk k _ _ _ _ _ cs => k == NodeType.File || hasFileList cs

def hasFileList : List Node → Bool
  | [] => false
  | c :: cs => Node.hasFile c || hasFileList cs

end

theorem mem_allNodesList {m : Node} {cs : List Node} :
    m ∈ allNodesList cs ↔ ∃ c ∈ cs, m ∈ allNodes c := by
  induction cs with
  | nil => simp [allNodesList]
  | cons c cs ih => simp [allNodesList, ih]

theorem hasFileList_of_mem {c : Node} {cs : List Node}
    (hc : c ∈ cs) (hf : Node.hasFile c = true) : hasFileList cs = true := by
  induction cs with
  | nil => cases hc
  | cons d ds ih =>
    rcases List.mem_cons.mp hc with h | h
    · subst h; simp [hasFileList, hf]
    · simp [hasFileList, ih h]

/-- A built entry that survives both skip checks of `Node::fill` (not the
exclusion sentinel, not a childless folder) has a `File` node in its subtree,
and so does every `Folder` node inside it. -/
theorem fill_kept_has_file (targets : List String) (e : FsEntry) :
    (Node.fill targets e).path ≠ "..." →
    ((Node.fill targets e).kind == NodeType.Folder &&
      (Node.fill targets e).children.isEmpty) = false →
    Node.hasFile (Node.fill targets e) = true ∧
    ∀ m ∈ allNodes (Node.fill targets e),
      m.kind = NodeType.Folder → Node.hasFile m = true := by
  refine @FsEntry.rec
    (fun e => (Node.fill targets e).path ≠ "..." →
      ((Node.fill targets e).kind == NodeType.Folder &&
        (Node.fill targets e).children.isEmpty) = false →
      Node.hasFile (Node.fill targets e) = true ∧
      ∀ m ∈ allNodes (Node.fill targets e),
        m.kind = NodeType.Folder → Node.hasFile m = true)
    (fun es => ∀ c ∈ fillList targets es,
      Node.hasFile c = true ∧
      ∀ m ∈ allNodes c, m.kind = NodeType.Folder → Node.hasFile m = true)
    ?_ ?_ ?_ ?_ e
  · intro p nm ext mt ct h1 _
    cases ext with
    | none =>
      simp only [Node.fill, Node.path] at h1
      exact absurd rfl h1
    | some x =>
      simp only [Node.fill] at h1 ⊢
      by_cases ht : targets.contains x = true
      · rw [if_pos ht]
        rw [if_pos ht] at h1
        refine ⟨rfl, ?_⟩
        intro m hm hk
        simp only [allNodes, allNodesList] at hm
        rcases List.mem_cons.mp hm with h | h
        · subst h; simp at hk
        · cases h
      · rw [if_neg ht] at h1
        simp only [Node.path] at h1
        exact absurd rfl h1
  · intro p nm readable entries ih h1 h2
    cases readable with
    | false =>
      simp only [Node.fill, if_neg (by simp : ¬(False = True)),
        Node.kind, Node.children] at h2
      simp [Node.fill] at h2
    | true =>
      simp only [Node.fill, if_pos] at h1 h2 ⊢
      simp only [Node.kind, Node.children] at h2
      have hne : fillList targets entries ≠ [] := by
        intro hnil
        rw [hnil] at h2
        simp at h2
      obtain ⟨c0, cs0, hcons⟩ := List.exists_cons_of_ne_nil hne
      have hc0 : c0 ∈ fillList targets entries := by rw [hcons]; exact List.mem_cons_self c0 cs0
      have hfl : hasFileList (fillList targets entries) = true :=
        hasFileList_of_mem hc0 (ih c0 hc0).1
      have hroot : Node.hasFile
          (Node.mk .Folder p (nm.getD "root") none none false
            (fillList targets entries)) = true := by
        simp [Node.hasFile, hfl]
      refine ⟨hroot, ?_⟩
      intro m hm hk
      simp only [allNodes] at hm
      rcases List.mem_cons.mp hm with h | h
      · subst h; exact hroot
      · obtain ⟨c, hc, hmc⟩ := mem_allNodesList.mp h
        exact (ih c hc).2 m hmc hk
  · intro c hc
    simp [fillList] at hc
  · intro e es ihe ihes c hc
    simp only [fillList] at hc
    by_cases h1 : (Node.fill targets e).path = "..."
    · rw [if_pos h1] at hc
      exact ihes c hc
    · rw [if_neg h1] at hc
      cases h2 : ((Node.fill targets e).kind == NodeType.Folder &&
          (Node.fill targets e).children.isEmpty) with
      | true =>
        rw [if_pos h2] at hc
        exact ihes c hc
      | false =>
        rw [if_neg (bool_ne_true h2)] at hc
        rcases List.mem_cons.mp hc with h | h
        · subst h; exact ihe h1 h2
        · exact ihes c h

/-- Every child kept by `fillList` has a `File` node in its subtree, and so
does every `Folder` node inside it. -/
theorem fillList_kept_have_file (targets : List String) (es : List FsEntry) :
    ∀ c ∈ fillList targets es,
      Node.hasFile c = true ∧
      ∀ m ∈ allNodes c, m.kind = NodeType.Folder → Node.hasFile m = true := by
  induction es with
  | nil => intro c hc; simp [fillList] at hc
  | cons e es ihes =>
    intro c hc
    simp only [fillList] at hc
    by_cases h1 : (Node.fill targets e).path = "..."
    · rw [if_pos h1] at hc
      exact ihes c hc
    · rw [if_neg h1] at hc
      cases h2 : ((Node.fill targets e).kind == NodeType.Folder &&
          (Node.fill targets e).children.isEmpty) with
      | true =>
        rw [if_pos h2] at hc
        exact ihes c hc
      | false =>
        rw [if_neg (bool_ne_true h2)] at hc
        rcases List.mem_cons.mp hc with h | h
        · subst h; exact fill_kept_has_file targets e h1 h2
        · exact ihes c h

/-- C6 counterexample: the builder never prunes the ROOT node.  Building an
empty directory (as `FileTree::fill` does from the current working directory)
produces a finished tree whose root is a `Folder` node with no descendant
`File` node, contradicting the claim for that Folder node. -/
theorem fill_root_folder_no_file_descendant :
    (Node.fill ["txt"] (.dir "/r" (some "r") true [])).kind = NodeType.Folder ∧
    Node.fill ["txt"] (.dir "/r" (some "r") true []) ∈
      allNodes (Node.fill ["txt"] (.dir "/r" (some "r") true [])) ∧
    Node.hasFile (Node.fill ["txt"] (.dir "/r" (some "r") true [])) = false :=
  ⟨rfl, List.Mem.head _, rfl⟩

/-- C6 (amended): every Folder node strictly below the root of a finished
tree (i.e. inside some `children` list) has at least one descendant `File`
node — no empty branch below the root survives pruning.  The root Folder
itself is exempt: it is built unconditionally and may have no `File`
descendant when no qualifying file exists. -/
theorem fill_folders_below_root_have_file (targets : List String) (p : String)
    (nm : Option String) (r : Bool) (es : List FsEntry) :
    ∀ c ∈ (Node.fill targets (.dir p nm r es)).children,
      ∀ m ∈ allNodes c, m.kind = NodeType.Folder → Node.hasFile m = true := by
  intro c hc m hm hk
  cases r with
  | false => simp [Node.fill] at hc
  | true =>
    simp only [Node.fill, if_pos, Node.children] at hc
    exact (fillList_kept_have_file targets es c hc).2 m hm hk

/-- Witness for C6's amended statement: a root containing a subfolder with
one tracked file; the subfolder Folder node has a `File` descendant. -/
theorem fill_folders_below_root_have_file_witness :
    Node.hasFile (Node.mk .Folder "/r/s" "s" none none false
      [Node.mk .File "/r/s/a.txt" "a.txt" (some 1) (some "x") false []]) = true :=
  fill_folders_below_root_have_file ["txt"] "/r" (some "r") true
    [.dir "/r/s" (some "s") true
      [.file "/r/s/a.txt" (some "a.txt") (some "txt") (some 1) (some "x")]]
    (Node.mk .Folder "/r/s" "s" none none false
      [Node.mk .File "/r/s/a.txt" "a.txt" (some 1) (some "x") false []])
    (List.Mem.head _)
    (Node.mk .Folder "/r/s" "s" none none false
      [Node.mk .File "/r/s/a.txt" "a.txt" (some 1) (some "x") false []])
    (List.Mem.head _) rfl

/-! ## Configuration (`Config`, `Config::fetch`, the `CONFIG` initializer)

`Config::fetch` reads `watcher.toml`; the outcome of `fs::read_to_string` is
modelled by `ReadResult`.  TOML deserialization (`toml::from_str`, an
external crate) is passed in as `parse` — modelled from the spec:
deserialization of the configuration table may fail on malformed input, in
which case `fetch` propagates the error via `?`.  `saveOk` models whether
`Config::save` (persisting the default) succeeds; its failure also
propagates via `?`. -/

structure Config where
  targets : List String
  endpoints : List String
deriving DecidableEq, Repr

/-- `Config::default` from the Rust source. -/
def Config.default : Config :=
  { targets := ["txt", "json", "toml", "rs"], endpoints := ["localhost:9996"] }

/-- Outcome of `fs::read_to_string(watcher.toml)`. -/
inductive ReadResult where
  | ok (contents : String)
  | notFound
  | otherErr
deriving DecidableEq, Repr

inductive FetchError where
  | parse
  | save
  | io
deriving DecidableEq, Repr

/-- `Config::fetch`: returns the parsed configuration, or the persisted
default (flag `true`) when the file is missing, or an error.  Malformed
contents (`parse` returns `none`) yield `Except.error .parse`. -/
def Config.fetch (parse : String → Option Config) (saveOk : Bool) :
    ReadResult → Except FetchError (Config × Bool)
  | .ok contents =>
    match parse contents with
    | some c => .ok (c, false)
    | none => .error .parse
  | .notFound =>
    if saveOk then .ok (Config.default, true) else .error .save
  | .otherErr => .error .io

/-- The `CONFIG` static initializer:
`Config::fetch().unwrap_or(Config::default())` — any fetch error is swallowed
and replaced by the hard-coded default. -/
def configValue (parse : String → Option Config) (saveOk : Bool)
    (r : ReadResult) : Config :=
  match Config.fetch parse saveOk r with
  | .ok (c, _) => c
  | .error _ => Config.default

/-- C8 counterexample: with the config file present but malformed (`parse`
rejects the contents), `Config::fetch` does return an error — but the
`CONFIG` initializer swallows it with `unwrap_or(Config::default())` and the
process proceeds with the hard-coded default configuration instead of
terminating. -/
theorem malformed_config_not_fatal :
    Config.fetch (fun _ => none) true (.ok "not toml") = .error .parse ∧
    configValue (fun _ => none) true (.ok "not toml") = Config.default :=
  ⟨rfl, rfl⟩

/-- C8 (amended): when the configuration file exists but is malformed,
`Config::fetch` returns a parse error, but startup does not fail: the
`CONFIG` initializer swallows the error and proceeds with the hard-coded
default (without persisting it); only when no configuration file is found is
the default persisted and used. -/
theorem config_startup (parse : String → Option Config) (saveOk : Bool)
    (s : String) (hbad : parse s = none) :
    (Config.fetch parse saveOk (.ok s) = .error .parse ∧
     configValue parse saveOk (.ok s) = Config.default) ∧
    (Config.fetch parse true .notFound = .ok (Config.default, true) ∧
     configValue parse true .notFound = Config.default) := by
  refine ⟨⟨?_, ?_⟩, rfl, rfl⟩ <;> simp [Config.fetch, configValue, hbad]

/-- Witness for C8's amended statement at a concrete rejecting parser. -/
theorem config_startup_witness :
    (Config.fetch (fun _ => none) false (.ok "x") = .error .parse ∧
     configValue (fun _ => none) false (.ok "x") = Config.default) ∧
    (Config.fetch (fun _ => none) true .notFound = .ok (Config.default, true) ∧
     configValue (fun _ => none) true .notFound = Config.default) :=
  config_startup (fun _ => none) false "x" rfl

/-! ## Dispatch (`Notification::notify`)

`notify` loops over `CONFIG.endpoints`, POSTing the serialized payload to
each; `send` tells whether the POST to a given endpoint succeeds.
`notifySends` returns the trace of endpoints actually POSTed, in order,
together with the `Result` of the whole call: because the loop body ends in
`?`, a failed send returns early. -/

def notifySends (send : String → Bool) : List String → List String × Bool
  | [] => ([], true)
  | e :: es =>
    if send e then
      let r := notifySends send es
      (e :: r.1, r.2)
    else
      ([e], false)

/-- C9 counterexample: with endpoints `["a", "b"]` where the send to `"a"`
fails, `notify` returns early via `?` and never attempts `"b"`: a send
failure for one endpoint does prevent delivery to the remaining ones. -/
theorem notify_failure_blocks_rest :
    (notifySends (fun e => e == "b") ["a", "b"]).1 = ["a"] ∧
    "b" ∉ (notifySends (fun e => e == "b") ["a", "b"]).1 := by
  decide

/-- C9 (amended): `notify` attempts the endpoints in configuration order
only up to and including the first failing one — a send failure aborts the
remaining endpoints (the error propagates out of `notify` and is swallowed,
unretried, by the run loop's `let _ =`).  When every send succeeds, all
endpoints are attempted and the call returns success. -/
theorem notify_stops_at_first_failure (send : String → Bool) (es : List String) :
    notifySends send es =
      match es.dropWhile send with
      | [] => (es, true)
      | e :: _ => (es.takeWhile send ++ [e], false) := by
  induction es with
  | nil => rfl
  | cons e es ih =>
    by_cases h : send e = true
    · cases hd : es.dropWhile send with
      | nil => simp [notifySends, h, List.dropWhile_cons, List.takeWhile_cons, ih, hd]
      | cons e' es' => simp [notifySends, h, List.dropWhile_cons, List.takeWhile_cons, ih, hd]
    · simp [notifySends, h, List.dropWhile_cons, List.takeWhile_cons]

/-! ## The run loop (`main`)

One cycle of the loop in `main`: poll the tree into the persistent
`notifications` vector, then `pop()` (remove and return the LAST element,
the most recently discovered notification) and dispatch it.  The vector is
NOT cleared: whatever remains stays for later cycles. -/

structure CycleResult where
  tree : Node
  buffer : List Notification
  dispatched : Option Notification

def runCycle (fs : FS) (tree : Node) (buffer : List Notification) : CycleResult :=
  let polled := Node.poll fs tree
  let buf := buffer ++ polled.2
  { tree := polled.1, buffer := buf.dropLast, dispatched := buf.getLast? }

/-! The notifications a poll pass discovers, computed directly as a pre-order
traversal (the node's own change first, then its children's in order). -/

mutual

def changedFiles (fs : FS) : Node → List Notification
  | .mk k p _ e ct _ cs =>
    (if k = NodeType.File ∧ e ≠ fs.stat p then
      match ct, fs.read p with
      | some o, some nw => [⟨p, diffStr o nw⟩]
      | _, _ => []
    else []) ++ changedFilesList fs cs

def changedFilesList (fs : FS) : List Node → List Notification
  | [] => []
  | c :: cs => changedFiles fs c ++ changedFilesList fs cs

end

/-- The notifications pushed by `Node::poll` are exactly the pre-order list
of changed files. -/
theorem poll_notifs_eq_changedFiles (fs : FS) (n : Node) :
    (Node.poll fs n).2 = changedFiles fs n := by
  refine @Node.rec (fun m => (Node.poll fs m).2 = changedFiles fs m)
    (fun cs => (pollList fs cs).2 = changedFilesList fs cs) ?_ ?_ ?_ n
  · intro k p nm e ct md cs ih
    by_cases h : k = NodeType.File ∧ e ≠ fs.stat p
    · simp [Node.poll, changedFiles, h, ih]
    · simp [Node.poll, changedFiles, h, ih]
  · simp [pollList, changedFilesList]
  · intro c cs ihc ihcs
    simp [pollList, changedFilesList, ihc, ihcs]

/-- C10 (amended): in every run-loop cycle the poll pass discovers
notifications in pre-order traversal order and appends them to the standing
`notifications` vector; the loop then dispatches at most one notification —
the most recent one (the vector's last element) — while the backlog is NOT
discarded: it remains in the vector (and is dispatched in later cycles, one
per cycle, most recent first). -/
theorem runCycle_drains_most_recent (fs : FS) (tree : Node)
    (buffer : List Notification) :
    (runCycle fs tree buffer).dispatched =
      (buffer ++ changedFiles fs tree).getLast? ∧
    (runCycle fs tree buffer).buffer =
      (buffer ++ changedFiles fs tree).dropLast ∧
    (runCycle fs tree buffer).tree = (Node.poll fs tree).1 := by
  simp [runCycle, poll_notifs_eq_changedFiles]

/-- Concrete two-file tree and filesystem for the C10 counterexample. -/
def tree10 : Node :=
  .mk .Folder "/r" "r" none none false
    [.mk .File "/r/a.txt" "a.txt" (some 1) (some "1") false [],
     .mk .File "/r/b.txt" "b.txt" (some 1) (some "2") false []]

def fs10 : FS := ⟨fun _ => some 2, fun _ => some "9"⟩

/-- C10 counterexample: with two files changed in the same cycle, the first
cycle dispatches only the most recent notification (`/r/b.txt`) and leaves
the other in the vector; the next cycle — with no further filesystem change —
dispatches that backlog notification.  The backlog is retained and dispatched
in a later cycle, not silently discarded. -/
theorem backlog_dispatched_in_later_cycle :
    (runCycle fs10 tree10 []).dispatched = some ⟨"/r/b.txt", diffStr "2" "9"⟩ ∧
    (runCycle fs10 tree10 []).buffer = [⟨"/r/a.txt", diffStr "1" "9"⟩] ∧
    (runCycle fs10 (runCycle fs10 tree10 []).tree
        (runCycle fs10 tree10 []).buffer).dispatched =
      some ⟨"/r/a.txt", diffStr "1" "9"⟩ :=
  ⟨rfl, rfl, rfl⟩

end Watcher
